import Mathlib

/-!
# Verification of the recipe-collection engine

Shallow embedding of the two Python source files of the repository
(`lab2.py`, the catalog/composite variant, and `lab3.py`, the
command/undo variant) and proofs about their core operations.

Python strings are modelled as `String` values whose operations are
spelled out over the underlying code-point list (`String.data`),
because CPython compares strings lexicographically by code point,
lower-cases them code point by code point, and tests substring
containment on the code-point sequence.  Python object identity is
modelled by an explicit `oid : Nat` field: two `Recipe` values are the
same Python object exactly when they are structurally equal, every
distinct object carrying a distinct `oid`.  Python exceptions of the
engine are modelled with `Except`.
-/

/-- The Python exception classes that the embedded code can raise. -/
inductive PyError where
  | attributeError
  | valueError
deriving DecidableEq, Repr

/-- Code-point-wise lower-casing, the model of Python `str.lower()`
restricted to the character transformations Lean's `Char.toLower`
performs (identical to CPython on ASCII data). -/
def lowerChars (s : String) : List Char :=
  s.data.map Char.toLower

/-- Lexicographic comparison of code-point lists: the model of the
`<=` induced by Python's `<` on strings, used by `sorted`. -/
def lexLe : List Char → List Char → Bool
  | [], _ => true
  | _ :: _, [] => false
  | a :: as, b :: bs => if a = b then lexLe as bs else decide (a < b)

theorem lexLe_refl (l : List Char) : lexLe l l = true := by
  induction l with
  | nil => rfl
  | cons a as ih => simp [lexLe, ih]

theorem lexLe_total (as bs : List Char) : lexLe as bs = true ∨ lexLe bs as = true := by
  induction as generalizing bs with
  | nil => exact Or.inl rfl
  | cons a as ih =>
    cases bs with
    | nil => exact Or.inr rfl
    | cons b bs =>
      by_cases hab : a = b
      · subst hab
        simpa [lexLe] using ih bs
      · rcases Ne.lt_or_lt hab with h | h
        · exact Or.inl (by simp [lexLe, hab, h])
        · exact Or.inr (by simp [lexLe, Ne.symm hab, h])

theorem lexLe_trans {as bs cs : List Char}
    (h1 : lexLe as bs = true) (h2 : lexLe bs cs = true) : lexLe as cs = true := by
  induction as generalizing bs cs with
  | nil => rfl
  | cons a as ih =>
    cases bs with
    | nil => simp [lexLe] at h1
    | cons b bs =>
      cases cs with
      | nil => simp [lexLe] at h2
      | cons c cs =>
        by_cases hab : a = b <;> by_cases hbc : b = c
        · subst hab; subst hbc
          simp only [lexLe, if_pos rfl] at h1 h2 ⊢
          exact ih h1 h2
        · subst hab
          simp only [lexLe, if_pos rfl] at h1
          simp only [lexLe, if_neg hbc, decide_eq_true_eq] at h2
          simp [lexLe, hbc, h2]
        · subst hbc
          simp only [lexLe, if_neg hab, decide_eq_true_eq] at h1
          simp [lexLe, hab, h1]
        · simp only [lexLe, if_neg hab, decide_eq_true_eq] at h1
          simp only [lexLe, if_neg hbc, decide_eq_true_eq] at h2
          have hac : a < c := lt_trans h1 h2
          simp [lexLe, ne_of_lt hac, hac]

namespace Lab3

/-- `lab3.Recipe`: the four mutable fields, plus `oid` standing for
Python object identity (see the file header). -/
structure Recipe where
  oid : Nat
  name : String
  ingredients : List String
  instructions : String
  preparation_time : Int
deriving DecidableEq, Repr

/-- `lab3.RecipeMemento`: a value copy of the four recipe fields. -/
structure RecipeMemento where
  name : String
  ingredients : List String
  instructions : String
  preparation_time : Int
deriving DecidableEq, Repr

/-- `Recipe.create_memento`. -/
def Recipe.create_memento (r : Recipe) : RecipeMemento :=
  ⟨r.name, r.ingredients, r.instructions, r.preparation_time⟩

/-- `Recipe.restore_from_memento`: overwrites the four fields; the
object (its `oid`) stays the same. -/
def Recipe.restore_from_memento (r : Recipe) (m : RecipeMemento) : Recipe :=
  { r with
    name := m.name
    ingredients := m.ingredients
    instructions := m.instructions
    preparation_time := m.preparation_time }

/-- The two concrete `SortStrategy` subclasses of `lab3.py`. -/
inductive SortStrategy where
  | sortByName
  | sortByPreparationTime
deriving DecidableEq, Repr

/-- The comparison each strategy sorts by: `SortByName` uses the key
`r.name.lower()`, `SortByPreparationTime` the key
`(r.preparation_time, r.name.lower())` (Python tuple order). -/
def keyLE : SortStrategy → Recipe → Recipe → Prop
  | .sortByName => fun a b => lexLe (lowerChars a.name) (lowerChars b.name) = true
  | .sortByPreparationTime => fun a b =>
      a.preparation_time < b.preparation_time ∨
        (a.preparation_time = b.preparation_time ∧
          lexLe (lowerChars a.name) (lowerChars b.name) = true)

instance (s : SortStrategy) : DecidableRel (keyLE s) := fun a b => by
  cases s <;> unfold keyLE <;> infer_instance

instance (s : SortStrategy) : IsTotal Recipe (keyLE s) := by
  constructor
  intro a b
  cases s with
  | sortByName => exact lexLe_total _ _
  | sortByPreparationTime =>
    unfold keyLE
    rcases lt_trichotomy a.preparation_time b.preparation_time with h | h | h
    · exact Or.inl (Or.inl h)
    · rcases lexLe_total (lowerChars a.name) (lowerChars b.name) with hn | hn
      · exact Or.inl (Or.inr ⟨h, hn⟩)
      · exact Or.inr (Or.inr ⟨h.symm, hn⟩)
    · exact Or.inr (Or.inl h)

instance (s : SortStrategy) : IsTrans Recipe (keyLE s) := by
  constructor
  intro a b c hab hbc
  cases s with
  | sortByName => exact lexLe_trans hab hbc
  | sortByPreparationTime =>
    unfold keyLE at hab hbc ⊢
    rcases hab with hab | ⟨hab, han⟩
    · rcases hbc with hbc | ⟨hbc, _⟩
      · exact Or.inl (lt_trans hab hbc)
      · exact Or.inl (hbc ▸ hab)
    · rcases hbc with hbc | ⟨hbc, hbn⟩
      · exact Or.inl (hab ▸ hbc)
      · exact Or.inr ⟨hab.trans hbc, lexLe_trans han hbn⟩

/-- `SortStrategy.sort`.  Python's `sorted` is a stable sort by the
strategy key; `List.insertionSort` with the reflexive total relation
`keyLE s` is the same stable sort (earlier elements are inserted in
front of later elements with an equal key). -/
def SortStrategy.sort (s : SortStrategy) (recipes : List Recipe) : List Recipe :=
  List.insertionSort (keyLE s) recipes

/-- `lab3.RecipeManager` state: the recipe list, the registered
observers (opaque object identities), and the active strategy.
`notifyLog` records each `notify_observers` call as the list of
observers updated by it, so that notification behaviour is part of the
state. -/
structure RecipeManager where
  recipes : List Recipe
  observers : List Nat
  sort_strategy : SortStrategy
  notifyLog : List (List Nat)
deriving DecidableEq, Repr

/-- `RecipeManager.__init__`: empty collection, no observers,
`SortByName` strategy. -/
def managerInit : RecipeManager :=
  ⟨[], [], .sortByName, []⟩

/-- `RecipeManager.notify_observers`: calls `update()` on every
registered observer (recorded in the log). -/
def notify_observers (m : RecipeManager) : RecipeManager :=
  { m with notifyLog := m.notifyLog ++ [m.observers] }

/-- `RecipeManager.sort_recipes`: `self.recipes = strategy.sort(self.recipes.copy())`. -/
def sort_recipes (m : RecipeManager) : RecipeManager :=
  { m with recipes := m.sort_strategy.sort m.recipes }

/-- `RecipeManager.add_recipe`: append, re-sort, notify. -/
def add_recipe (m : RecipeManager) (r : Recipe) : RecipeManager :=
  notify_observers (sort_recipes { m with recipes := m.recipes ++ [r] })

/-- `RecipeManager.remove_recipe`: if the recipe is present, remove its
first occurrence (`list.remove`) and notify; otherwise do nothing. -/
def remove_recipe (m : RecipeManager) (r : Recipe) : RecipeManager :=
  if r ∈ m.recipes then
    notify_observers { m with recipes := m.recipes.erase r }
  else m

/-- `self.recipes[self.recipes.index(old)] = new`: replace the first
occurrence of `old` by `new`. -/
def setFirst : List Recipe → Recipe → Recipe → List Recipe
  | [], _, _ => []
  | x :: xs, old, new => if x = old then new :: xs else x :: setFirst xs old new

/-- `RecipeManager.update_recipe`: if `old` is present, overwrite it in
place by `new`, re-sort, notify; otherwise do nothing. -/
def update_recipe (m : RecipeManager) (old new : Recipe) : RecipeManager :=
  if old ∈ m.recipes then
    notify_observers (sort_recipes { m with recipes := setFirst m.recipes old new })
  else m

/-- `RecipeManager.set_sort_strategy`: swap strategy, re-sort, notify. -/
def set_sort_strategy (m : RecipeManager) (s : SortStrategy) : RecipeManager :=
  notify_observers (sort_recipes { m with sort_strategy := s })

/-- `RecipeManager.add_observer`: `self.observers.append(observer)`. -/
def add_observer (m : RecipeManager) (o : Nat) : RecipeManager :=
  { m with observers := m.observers ++ [o] }

/-- `RecipeManager.remove_observer`: bare `self.observers.remove(observer)`,
which raises `ValueError` when the observer is not registered. -/
def remove_observer (m : RecipeManager) (o : Nat) : Except PyError RecipeManager :=
  if o ∈ m.observers then
    .ok { m with observers := m.observers.erase o }
  else .error .valueError

end Lab3

namespace Lab3

/-- `lab3.AddRecipeCommand`: closes over the recipe; the manager is the
explicit state argument of `execute`/`undo`. -/
structure AddRecipeCommand where
  recipe : Recipe
deriving DecidableEq, Repr

/-- `AddRecipeCommand.execute`: `manager.add_recipe(recipe)`. -/
def AddRecipeCommand.execute (c : AddRecipeCommand) (m : RecipeManager) : RecipeManager :=
  add_recipe m c.recipe

/-- `AddRecipeCommand.undo`: `manager.remove_recipe(recipe)`. -/
def AddRecipeCommand.undo (c : AddRecipeCommand) (m : RecipeManager) : RecipeManager :=
  remove_recipe m c.recipe

/-- `lab3.DeleteRecipeCommand`. -/
structure DeleteRecipeCommand where
  recipe : Recipe
deriving DecidableEq, Repr

/-- `DeleteRecipeCommand.execute`: `manager.remove_recipe(recipe)`. -/
def DeleteRecipeCommand.execute (c : DeleteRecipeCommand) (m : RecipeManager) : RecipeManager :=
  remove_recipe m c.recipe

/-- `DeleteRecipeCommand.undo`: `manager.add_recipe(recipe)`. -/
def DeleteRecipeCommand.undo (c : DeleteRecipeCommand) (m : RecipeManager) : RecipeManager :=
  add_recipe m c.recipe

/-- One call to a collection-mutating method of `RecipeManager`. -/
inductive Op where
  | add (r : Recipe)
  | remove (r : Recipe)
  | update (old new : Recipe)
  | setStrategy (s : SortStrategy)
deriving DecidableEq, Repr

/-- Apply one manager operation. -/
def step (m : RecipeManager) : Op → RecipeManager
  | .add r => add_recipe m r
  | .remove r => remove_recipe m r
  | .update old new => update_recipe m old new
  | .setStrategy s => set_sort_strategy m s

/-- Run a sequence of manager operations from the freshly constructed
manager. -/
def runOps (ops : List Op) : RecipeManager :=
  ops.foldl step managerInit

/-- `isPre n h` is true iff `n` is an initial segment of `h`. -/
def isPre : List Char → List Char → Bool
  | [], _ => true
  | _ :: _, [] => false
  | a :: as, b :: bs => a = b && isPre as bs

/-- `subStr n h` is true iff `n` occurs contiguously in `h`: the model
of Python's `n in h` on strings. -/
def subStr : List Char → List Char → Bool
  | n, [] => n.isEmpty
  | n, h :: t => isPre n (h :: t) || subStr n t

/-- `lab3.KeywordExpression`: the keyword is lower-cased once, in the
constructor. -/
structure KeywordExpression where
  keyword : List Char
deriving DecidableEq, Repr

/-- `KeywordExpression.__init__`: `self.keyword = keyword.lower()`. -/
def mkKeywordExpression (k : String) : KeywordExpression :=
  ⟨lowerChars k⟩

/-- `KeywordExpression.interpret`: the keyword occurs in
`recipe.name.lower()` or in `ing.lower()` for some ingredient. -/
def KeywordExpression.interpret (e : KeywordExpression) (r : Recipe) : Bool :=
  subStr e.keyword (lowerChars r.name) ||
    r.ingredients.any fun ing => subStr e.keyword (lowerChars ing)

/-- `RecipeManager.search_recipes`: build a `KeywordExpression` from
the query and keep, in order, the recipes it interprets as true. -/
def search_recipes (m : RecipeManager) (q : String) : List Recipe :=
  m.recipes.filter fun r => (mkKeywordExpression q).interpret r

/-- `RecipeManager.search_recipes` as a method call in the state-passing
style: the returned list together with the manager state after the
call.  The method body only reads `self.recipes`, so the state passes
through unchanged. -/
def search_recipes_run (m : RecipeManager) (q : String) : List Recipe × RecipeManager :=
  (search_recipes m q, m)

/-- Python `str.strip()` restricted to ASCII whitespace: drop
whitespace from both ends. -/
def pyStrip (l : List Char) : List Char :=
  ((l.dropWhile Char.isWhitespace).reverse.dropWhile Char.isWhitespace).reverse

/-- The validator chain of `lab3.py` (Chain of Responsibility): a node
is the plain base `Validator`, a `NameValidator` or an
`IngredientsValidator`, each with an optional successor. -/
inductive Validator where
  | base (next : Option Validator)
  | nameValidator (next : Option Validator)
  | ingredientsValidator (next : Option Validator)

/-- The message of the `ValueError` raised by `NameValidator`. -/
def nameRequiredMsg : String := "Название обязательно"

/-- The message of the `ValueError` raised by `IngredientsValidator`. -/
def ingredientsRequiredMsg : String := "Ингредиенты обязательны"

mutual

/-- `Validator.validate` and its overrides: a concrete validator checks
its own rule and raises `ValueError` with its own message when the rule
fails; otherwise it forwards to the successor (the base class body);
a missing successor means success. -/
def Validator.validate : Validator → Recipe → Except String Unit
  | .base next, r => validateNext next r
  | .nameValidator next, r =>
      if pyStrip r.name.data = [] then .error nameRequiredMsg
      else validateNext next r
  | .ingredientsValidator next, r =>
      if r.ingredients = [] then .error ingredientsRequiredMsg
      else validateNext next r

/-- `Validator.validate` of the base class applied to the optional
successor. -/
def validateNext : Option Validator → Recipe → Except String Unit
  | some v, r => Validator.validate v r
  | none, _ => .ok ()

end

/-- The reference chain `NameValidator(IngredientsValidator())` built
by the dialogs of `lab3.py`. -/
def referenceChain : Validator :=
  .nameValidator (some (.ingredientsValidator none))

end Lab3

namespace Lab2

/-- `lab2.RecipeComponent`: either an interned `Ingredient` leaf or a
composite `Recipe` with its `uuid`-assigned `id`, `name`, `category`,
`owner` (`none` = public) and component list. -/
inductive RecipeComponent where
  | ingredient (name : String)
  | recipe (id : String) (name : String) (category : Option String)
      (owner : Option String) (components : List RecipeComponent)

/-- Python string interpolation of a `category` value that may be
`None`. -/
def optStr : Option String → String
  | some s => s
  | none => "None"

mutual

/-- `get_description`: an `Ingredient` is just its name; a `Recipe`
yields a header `"name (category)\n"` followed by one
`"- <description>\n"` line per component. -/
def RecipeComponent.get_description : RecipeComponent → String
  | .ingredient n => n
  | .recipe _ n c _ comps => n ++ " (" ++ optStr c ++ ")\n" ++ descriptionLines comps

/-- The lines accumulated by the loop in `Recipe.get_description`. -/
def descriptionLines : List RecipeComponent → String
  | [] => ""
  | comp :: comps =>
      "- " ++ RecipeComponent.get_description comp ++ "\n" ++ descriptionLines comps

end

mutual

/-- `get_ingredients`: an `Ingredient` yields `[self]`; a `Recipe`
concatenates the ingredient lists of its components. -/
def RecipeComponent.get_ingredients : RecipeComponent → List RecipeComponent
  | .ingredient n => [.ingredient n]
  | .recipe _ _ _ _ comps => ingredientsConcat comps

/-- The list accumulated by the loop in `Recipe.get_ingredients`. -/
def ingredientsConcat : List RecipeComponent → List RecipeComponent
  | [] => []
  | comp :: comps =>
      RecipeComponent.get_ingredients comp ++ ingredientsConcat comps

end

/-- The `owner` attribute, read by `ProtectedRecipe.has_access`.  Only
`Recipe` objects are ever wrapped (`get_recipe` wraps repository
entries, which are saved `Recipe`s), so the `ingredient` case is
unreachable there; it is given the public default. -/
def RecipeComponent.owner : RecipeComponent → Option String
  | .ingredient _ => none
  | .recipe _ _ _ ow _ => ow

/-- The `id` attribute, the repository key assigned by `save_recipe`. -/
def RecipeComponent.rid : RecipeComponent → String
  | .ingredient _ => ""
  | .recipe i _ _ _ _ => i

/-- `lab2.ProtectedRecipe` (Proxy): a wrapped component plus the
requesting user. -/
structure ProtectedRecipe where
  recipe : RecipeComponent
  user : String

/-- `ProtectedRecipe.has_access`:
`owner is None or owner == user or user == "admin"`. -/
def ProtectedRecipe.has_access (p : ProtectedRecipe) : Bool :=
  p.recipe.owner.isNone || p.recipe.owner == some p.user || p.user == "admin"

/-- The access-denied marker returned by `get_description`. -/
def accessDeniedMsg : String := "Доступ запрещен"

/-- `ProtectedRecipe.get_description`: delegate when access is granted,
otherwise the fixed marker string. -/
def ProtectedRecipe.get_description (p : ProtectedRecipe) : String :=
  if p.has_access then p.recipe.get_description else accessDeniedMsg

/-- `ProtectedRecipe.get_ingredients`: delegate when access is granted,
otherwise the empty list. -/
def ProtectedRecipe.get_ingredients (p : ProtectedRecipe) : List RecipeComponent :=
  if p.has_access then p.recipe.get_ingredients else []

/-- `lab2.InMemoryRecipeRepository`: the `self.recipes` dict, modelled
as an association list with unique keys (first match wins on lookup,
`save_recipe` overwrites in place). -/
structure InMemoryRecipeRepository where
  recipes : List (String × RecipeComponent)

/-- Overwrite-or-append keyed storage: the model of
`self.recipes[recipe.id] = recipe`. -/
def storePut : List (String × RecipeComponent) → String → RecipeComponent →
    List (String × RecipeComponent)
  | [], k, v => [(k, v)]
  | (k0, v0) :: rest, k, v =>
      if k0 = k then (k0, v) :: rest else (k0, v0) :: storePut rest k v

/-- `InMemoryRecipeRepository.save_recipe`. -/
def save_recipe (repo : InMemoryRecipeRepository) (r : RecipeComponent) :
    InMemoryRecipeRepository :=
  ⟨storePut repo.recipes r.rid r⟩

/-- `InMemoryRecipeRepository.get_recipe`: `self.recipes.get(recipe_id)`,
`None` on a miss. -/
def repo_get_recipe (repo : InMemoryRecipeRepository) (rid : String) :
    Option RecipeComponent :=
  List.lookup rid repo.recipes

/-- `lab2.RecipeManager` (Facade) over the in-memory repository. -/
structure RecipeManager where
  repository : InMemoryRecipeRepository

/-- `RecipeManager.get_recipe`: look the id up; a (truthy) hit is
wrapped in a `ProtectedRecipe` for the user, a miss returns `None`. -/
def RecipeManager.get_recipe (m : RecipeManager) (rid user : String) :
    Option ProtectedRecipe :=
  match repo_get_recipe m.repository rid with
  | some r => some ⟨r, user⟩
  | none => none

/-- `RecipeManager.delete_recipe` calls `self.repository.delete_recipe(recipe_id)`,
but neither `RecipeRepository` nor `InMemoryRecipeRepository` defines a
`delete_recipe` method, so every call raises `AttributeError` before
touching any state. -/
def RecipeManager.delete_recipe (_ : RecipeManager) (_ : String) :
    Except PyError RecipeManager :=
  .error .attributeError

end Lab2

namespace Lab3

theorem orderedInsert_all_le {s : SortStrategy} {x : Recipe} {l : List Recipe}
    (h : ∀ y ∈ l, keyLE s x y) : List.orderedInsert (keyLE s) x l = x :: l := by
  cases l with
  | nil => rfl
  | cons y ys =>
    simp only [List.orderedInsert]
    rw [if_pos (h y (List.mem_cons_self y ys))]

/-- Where Python's stable sort puts a newly appended element `r`:
after every element whose key is less than or equal to the key of
`r`. -/
def insertLater (s : SortStrategy) (r : Recipe) : List Recipe → List Recipe
  | [] => [r]
  | x :: xs => if keyLE s x r then x :: insertLater s r xs else r :: x :: xs

theorem insertLater_cons_pos {s : SortStrategy} {x r : Recipe} {xs : List Recipe}
    (h : keyLE s x r) : insertLater s r (x :: xs) = x :: insertLater s r xs := by
  simp [insertLater, h]

theorem insertLater_cons_neg {s : SortStrategy} {x r : Recipe} {xs : List Recipe}
    (h : ¬ keyLE s x r) : insertLater s r (x :: xs) = r :: x :: xs := by
  simp [insertLater, h]

theorem insertionSort_sorted_append_singleton {s : SortStrategy} (r : Recipe) :
    ∀ (l : List Recipe), List.Sorted (keyLE s) l →
      List.insertionSort (keyLE s) (l ++ [r]) = insertLater s r l := by
  intro l
  induction l with
  | nil => intro _; rfl
  | cons x xs ih =>
    intro hl
    rw [List.sorted_cons] at hl
    obtain ⟨hx, hxs⟩ := hl
    show List.orderedInsert (keyLE s) x (List.insertionSort (keyLE s) (xs ++ [r])) =
      insertLater s r (x :: xs)
    rw [ih hxs]
    by_cases h : keyLE s x r
    · rw [insertLater_cons_pos h]
      cases xs with
      | nil => simp [insertLater, List.orderedInsert, h]
      | cons y ys =>
        by_cases hy : keyLE s y r
        · rw [insertLater_cons_pos hy]
          simp [List.orderedInsert, hx y (by simp)]
        · rw [insertLater_cons_neg hy]
          simp [List.orderedInsert, h]
    · rw [insertLater_cons_neg h]
      have hrx : insertLater s r xs = r :: xs := by
        cases xs with
        | nil => rfl
        | cons y ys =>
          have hyr : ¬ keyLE s y r := fun hyr =>
            h (IsTrans.trans x y r (hx y (by simp)) hyr)
          exact insertLater_cons_neg hyr
      rw [hrx]
      have h2 : List.orderedInsert (keyLE s) x xs = x :: xs := orderedInsert_all_le hx
      simp [List.orderedInsert, h, h2]

theorem mem_insertLater (s : SortStrategy) (r : Recipe) (l : List Recipe) :
    r ∈ insertLater s r l := by
  induction l with
  | nil => simp [insertLater]
  | cons x xs ih =>
    unfold insertLater
    split
    · exact List.mem_cons_of_mem x ih
    · exact List.mem_cons_self r _

theorem erase_insertLater {s : SortStrategy} {r : Recipe} :
    ∀ {l : List Recipe}, r ∉ l → (insertLater s r l).erase r = l := by
  intro l
  induction l with
  | nil => intro _; simp [insertLater]
  | cons x xs ih =>
    intro h
    have hxr : x ≠ r := fun e => h (e ▸ List.mem_cons_self x xs)
    have hxs : r ∉ xs := fun e => h (List.mem_cons_of_mem x e)
    unfold insertLater
    split
    · simp [List.erase_cons, hxr, ih hxs]
    · simp [List.erase_cons]

theorem sortedBy_step (m : RecipeManager) (op : Op)
    (h : List.Sorted (keyLE m.sort_strategy) m.recipes) :
    List.Sorted (keyLE (step m op).sort_strategy) (step m op).recipes := by
  cases op with
  | add r =>
    show List.Sorted (keyLE m.sort_strategy)
      (List.insertionSort (keyLE m.sort_strategy) (m.recipes ++ [r]))
    exact List.sorted_insertionSort _ _
  | remove r =>
    show List.Sorted (keyLE (remove_recipe m r).sort_strategy) (remove_recipe m r).recipes
    unfold remove_recipe
    split
    · exact h.sublist (List.erase_sublist r m.recipes)
    · exact h
  | update old new =>
    show List.Sorted (keyLE (update_recipe m old new).sort_strategy)
      (update_recipe m old new).recipes
    unfold update_recipe
    split
    · exact List.sorted_insertionSort _ _
    · exact h
  | setStrategy s =>
    exact List.sorted_insertionSort _ _

theorem sortedBy_foldl (ops : List Op) :
    ∀ m : RecipeManager, List.Sorted (keyLE m.sort_strategy) m.recipes →
      List.Sorted (keyLE (ops.foldl step m).sort_strategy) (ops.foldl step m).recipes := by
  induction ops with
  | nil => intro m h; exact h
  | cons op ops ih => intro m h; exact ih _ (sortedBy_step m op h)

/-- Claim C1: starting from the fresh `RecipeManager` of `lab3.py`,
after every sequence of `add_recipe`, `remove_recipe`, `update_recipe`
and `set_sort_strategy` calls the collection is sorted with respect to
the key order of the currently active strategy (`SortByName`:
case-insensitive lexicographic name; `SortByPreparationTime`:
preparation time, case-insensitive name as tie-break) — including
after `remove_recipe`, whose branch does not re-sort. -/
theorem sorted_order_invariant (ops : List Op) :
    List.Sorted (keyLE (runOps ops).sort_strategy) (runOps ops).recipes :=
  sortedBy_foldl ops managerInit List.sorted_nil

/-- Claim C2, counterexample: the round trip
`AddRecipeCommand.execute(); AddRecipeCommand.undo()` does not always
restore the sequence order.  From the empty manager, adding three
distinct objects that share the (case-insensitively equal) name `"a"`
reaches the collection `[a, r, b]`; executing `AddRecipeCommand(r)`
appends a second occurrence of `r` behind `b` (stable sort), and undo
removes the *first* occurrence of `r`, leaving `[a, b, r]` — the same
recipes in a different order. -/
theorem add_undo_not_identity_counterexample :
    (runOps [.add ⟨0, "a", [], "", 0⟩, .add ⟨1, "a", [], "", 0⟩,
        .add ⟨2, "a", [], "", 0⟩]).recipes =
      [⟨0, "a", [], "", 0⟩, ⟨1, "a", [], "", 0⟩, ⟨2, "a", [], "", 0⟩] ∧
    ((AddRecipeCommand.mk ⟨1, "a", [], "", 0⟩).undo
        ((AddRecipeCommand.mk ⟨1, "a", [], "", 0⟩).execute
          (runOps [.add ⟨0, "a", [], "", 0⟩, .add ⟨1, "a", [], "", 0⟩,
            .add ⟨2, "a", [], "", 0⟩]))).recipes =
      [⟨0, "a", [], "", 0⟩, ⟨2, "a", [], "", 0⟩, ⟨1, "a", [], "", 0⟩] ∧
    ((AddRecipeCommand.mk ⟨1, "a", [], "", 0⟩).undo
        ((AddRecipeCommand.mk ⟨1, "a", [], "", 0⟩).execute
          (runOps [.add ⟨0, "a", [], "", 0⟩, .add ⟨1, "a", [], "", 0⟩,
            .add ⟨2, "a", [], "", 0⟩]))).recipes ≠
      (runOps [.add ⟨0, "a", [], "", 0⟩, .add ⟨1, "a", [], "", 0⟩,
        .add ⟨2, "a", [], "", 0⟩]).recipes := by
  refine ⟨by decide, by decide, by decide⟩

/-- Claim C2, amended: for every manager state whose collection is
ordered by the active strategy and every recipe `r` *not already in
the collection*, `AddRecipeCommand(manager, r).execute()` followed by
`.undo()` restores the collection to its pre-execute state: the same
recipes, in the same sequence order. -/
theorem add_execute_undo_restores (m : RecipeManager) (r : Recipe)
    (hs : List.Sorted (keyLE m.sort_strategy) m.recipes) (hr : r ∉ m.recipes) :
    ((AddRecipeCommand.mk r).undo ((AddRecipeCommand.mk r).execute m)).recipes
      = m.recipes := by
  show (remove_recipe (add_recipe m r) r).recipes = m.recipes
  have hrec : (add_recipe m r).recipes = insertLater m.sort_strategy r m.recipes :=
    insertionSort_sorted_append_singleton r m.recipes hs
  have hmem : r ∈ (add_recipe m r).recipes := hrec ▸ mem_insertLater _ _ _
  simp only [remove_recipe, if_pos hmem, notify_observers]
  rw [hrec]
  exact erase_insertLater hr

/-- Claim C2 witness: the amended statement applied at the empty
manager and a concrete recipe. -/
theorem add_execute_undo_restores_witness :
    ((AddRecipeCommand.mk ⟨0, "Caesar", ["Lettuce"], "Toss", 15⟩).undo
        ((AddRecipeCommand.mk ⟨0, "Caesar", ["Lettuce"], "Toss", 15⟩).execute managerInit)).recipes
      = managerInit.recipes :=
  add_execute_undo_restores managerInit ⟨0, "Caesar", ["Lettuce"], "Toss", 15⟩
    List.sorted_nil (by decide)

end Lab3

namespace Lab3

/-- Claim C3: `RecipeManager.remove_recipe` removes the first
occurrence of the identical object when `r` is present and then
notifies the registered observers; when `r` is absent it is a
no-op — state unchanged, no notification, no error. -/
theorem remove_recipe_spec (m : RecipeManager) (r : Recipe) :
    (r ∈ m.recipes →
      (remove_recipe m r).recipes = m.recipes.erase r ∧
      (remove_recipe m r).observers = m.observers ∧
      (remove_recipe m r).sort_strategy = m.sort_strategy ∧
      (remove_recipe m r).notifyLog = m.notifyLog ++ [m.observers]) ∧
    (r ∉ m.recipes → remove_recipe m r = m) := by
  constructor
  · intro h
    simp [remove_recipe, if_pos h, notify_observers]
  · intro h
    simp [remove_recipe, if_neg h]

/-- Claim C3 witness: the present and absent branches at concrete
inputs. -/
theorem remove_recipe_spec_witness :
    (remove_recipe ⟨[⟨0, "a", [], "", 1⟩], [7], .sortByName, []⟩
        ⟨0, "a", [], "", 1⟩).recipes = [] ∧
    remove_recipe managerInit ⟨0, "a", [], "", 1⟩ = managerInit := by
  constructor
  · have h := (remove_recipe_spec ⟨[⟨0, "a", [], "", 1⟩], [7], .sortByName, []⟩
      ⟨0, "a", [], "", 1⟩).1 (by decide)
    rw [h.1]
    decide
  · exact (remove_recipe_spec managerInit ⟨0, "a", [], "", 1⟩).2 (by decide)

/-- Claim C4: the totality claim fails in the code.  Lab2
`RecipeManager.delete_recipe` raises `AttributeError` for every
`recipe_id`, because `InMemoryRecipeRepository` defines no
`delete_recipe` method; lab3 `RecipeManager.remove_observer` raises
`ValueError` whenever the observer is not registered (bare
`list.remove`). -/
theorem delete_and_remove_observer_raise :
    (∀ (m : Lab2.RecipeManager) (rid : String),
      Lab2.RecipeManager.delete_recipe m rid = Except.error PyError.attributeError) ∧
    (∀ (m : RecipeManager) (o : Nat), o ∉ m.observers →
      remove_observer m o = Except.error PyError.valueError) := by
  constructor
  · intro m rid
    rfl
  · intro m o h
    simp [remove_observer, if_neg h]

/-- Claim C4 witness: both raising branches at concrete inputs. -/
theorem delete_and_remove_observer_raise_witness :
    Lab2.RecipeManager.delete_recipe ⟨⟨[]⟩⟩ "some-id" = Except.error PyError.attributeError ∧
    remove_observer managerInit 0 = Except.error PyError.valueError :=
  ⟨delete_and_remove_observer_raise.1 ⟨⟨[]⟩⟩ "some-id",
    delete_and_remove_observer_raise.2 managerInit 0 (by decide)⟩

theorem isPre_iff (n : List Char) : ∀ (h : List Char),
    isPre n h = true ↔ ∃ q, h = n ++ q := by
  induction n with
  | nil =>
    intro h
    simp [isPre]
  | cons a as ih =>
    intro h
    cases h with
    | nil => simp [isPre]
    | cons b bs =>
      simp only [isPre, Bool.and_eq_true, decide_eq_true_eq, ih bs, List.cons_append,
        List.cons.injEq]
      constructor
      · rintro ⟨rfl, q, rfl⟩
        exact ⟨q, rfl, rfl⟩
      · rintro ⟨q, rfl, rfl⟩
        exact ⟨rfl, q, rfl⟩

theorem subStr_iff (n : List Char) : ∀ (h : List Char),
    subStr n h = true ↔ ∃ p q, h = p ++ n ++ q := by
  intro h
  induction h with
  | nil =>
    simp only [subStr, List.isEmpty_iff]
    constructor
    · rintro rfl
      exact ⟨[], [], rfl⟩
    · rintro ⟨p, q, hpq⟩
      rcases List.append_eq_nil.mp (List.append_eq_nil.mp hpq.symm).1 with ⟨-, h2⟩
      exact h2
  | cons b bs ih =>
    simp only [subStr, Bool.or_eq_true, isPre_iff, ih]
    constructor
    · rintro (⟨q, hq⟩ | ⟨p, q, hq⟩)
      · exact ⟨[], q, by simpa using hq⟩
      · exact ⟨b :: p, q, by simp [hq]⟩
    · rintro ⟨p, q, hpq⟩
      cases p with
      | nil =>
        exact Or.inl ⟨q, by simpa using hpq⟩
      | cons c cs =>
        rw [List.cons_append, List.cons_append, List.cons.injEq] at hpq
        exact Or.inr ⟨cs, q, hpq.2⟩

theorem subStr_nil (h : List Char) : subStr [] h = true := by
  cases h <;> simp [subStr, isPre]

/-- The specification-level predicate of claim C5: `k` is a
case-insensitive substring of `s`, i.e. the lower-cased code points of
`k` occur contiguously in the lower-cased code points of `s`. -/
def IsCaseInsensitiveSubstringOf (k s : String) : Prop :=
  ∃ p q, lowerChars s = p ++ lowerChars k ++ q

instance (k s : String) : Decidable (IsCaseInsensitiveSubstringOf k s) :=
  decidable_of_iff (subStr (lowerChars k) (lowerChars s) = true)
    (subStr_iff (lowerChars k) (lowerChars s))

/-- Claim C5: `KeywordExpression(k).interpret(r)` is true iff `k` is a
case-insensitive substring of the name or of some ingredient; the
empty keyword matches every recipe; and `search_recipes` returns
exactly the recipes of the current collection satisfying this
predicate, in collection order. -/
theorem keyword_search_spec :
    (∀ (k : String) (r : Recipe),
      (mkKeywordExpression k).interpret r = true ↔
        IsCaseInsensitiveSubstringOf k r.name ∨
          ∃ ing ∈ r.ingredients, IsCaseInsensitiveSubstringOf k ing) ∧
    (∀ r : Recipe, (mkKeywordExpression "").interpret r = true) ∧
    (∀ (m : RecipeManager) (q : String),
      search_recipes m q = m.recipes.filter fun r =>
        decide (IsCaseInsensitiveSubstringOf q r.name ∨
          ∃ ing ∈ r.ingredients, IsCaseInsensitiveSubstringOf q ing)) := by
  have hiff : ∀ (k : String) (r : Recipe),
      (mkKeywordExpression k).interpret r = true ↔
        IsCaseInsensitiveSubstringOf k r.name ∨
          ∃ ing ∈ r.ingredients, IsCaseInsensitiveSubstringOf k ing := by
    intro k r
    simp only [mkKeywordExpression, KeywordExpression.interpret, Bool.or_eq_true,
      List.any_eq_true, subStr_iff]
    rfl
  refine ⟨hiff, ?_, ?_⟩
  · intro r
    simp [mkKeywordExpression, KeywordExpression.interpret, lowerChars, subStr_nil]
  · intro m q
    apply List.filter_congr
    intro x _
    rcases hd : decide (IsCaseInsensitiveSubstringOf q x.name ∨
        ∃ ing ∈ x.ingredients, IsCaseInsensitiveSubstringOf q ing) with - | -
    · exact Bool.eq_false_iff.mpr fun hc => of_decide_eq_false hd ((hiff q x).mp hc)
    · exact (hiff q x).mpr (of_decide_eq_true hd)

/-- Claim C5 witness: the characterisation applied at a concrete
recipe and keyword, and a concrete search. -/
theorem keyword_search_spec_witness :
    ((mkKeywordExpression "chicken").interpret ⟨0, "Caesar", ["Lettuce", "Chicken"], "", 15⟩
        = true ↔
      IsCaseInsensitiveSubstringOf "chicken" "Caesar" ∨
        ∃ ing ∈ ["Lettuce", "Chicken"],
          IsCaseInsensitiveSubstringOf "chicken" ing) ∧
    (mkKeywordExpression "").interpret ⟨1, "x", [], "", 0⟩ = true :=
  ⟨keyword_search_spec.1 "chicken" ⟨0, "Caesar", ["Lettuce", "Chicken"], "", 15⟩,
    keyword_search_spec.2.1 ⟨1, "x", [], "", 0⟩⟩

end Lab3

namespace Lab2

/-- Claim C6: `ProtectedRecipe.has_access()` is true iff the wrapped
recipe's owner is `None`, or equals the user, or the user is
`"admin"`; `get_description()` and `get_ingredients()` delegate to the
wrapped recipe exactly when access is granted, and otherwise return
the fixed access-denied marker string and the empty list, without
raising. -/
theorem protected_recipe_spec (rc : RecipeComponent) (u : String) :
    (ProtectedRecipe.has_access ⟨rc, u⟩ = true ↔
      rc.owner = none ∨ rc.owner = some u ∨ u = "admin") ∧
    (ProtectedRecipe.has_access ⟨rc, u⟩ = true →
      ProtectedRecipe.get_description ⟨rc, u⟩ = rc.get_description ∧
      ProtectedRecipe.get_ingredients ⟨rc, u⟩ = rc.get_ingredients) ∧
    (ProtectedRecipe.has_access ⟨rc, u⟩ = false →
      ProtectedRecipe.get_description ⟨rc, u⟩ = accessDeniedMsg ∧
      ProtectedRecipe.get_ingredients ⟨rc, u⟩ = []) := by
  refine ⟨?_, ?_, ?_⟩
  · simp [ProtectedRecipe.has_access, Option.isNone_iff_eq_none, or_assoc]
  · intro h
    constructor
    · simp [ProtectedRecipe.get_description, h]
    · simp [ProtectedRecipe.get_ingredients, h]
  · intro h
    constructor
    · simp [ProtectedRecipe.get_description, h]
    · simp [ProtectedRecipe.get_ingredients, h]

/-- Claim C6 witness: a recipe owned by `"alice"` wrapped for `"bob"`
is denied (marker description, no ingredients), and the access
characterisation holds there. -/
theorem protected_recipe_spec_witness :
    (ProtectedRecipe.has_access
        ⟨.recipe "i1" "Cake" (some "Десерт") (some "alice") [.ingredient "Flour"], "bob"⟩
        = true ↔
      RecipeComponent.owner
          (.recipe "i1" "Cake" (some "Десерт") (some "alice") [.ingredient "Flour"]) = none ∨
        RecipeComponent.owner
          (.recipe "i1" "Cake" (some "Десерт") (some "alice") [.ingredient "Flour"])
            = some "bob" ∨
        "bob" = "admin") ∧
    ProtectedRecipe.get_description
        ⟨.recipe "i1" "Cake" (some "Десерт") (some "alice") [.ingredient "Flour"], "bob"⟩
      = accessDeniedMsg ∧
    ProtectedRecipe.get_ingredients
        ⟨.recipe "i1" "Cake" (some "Десерт") (some "alice") [.ingredient "Flour"], "bob"⟩
      = [] := by
  refine ⟨(protected_recipe_spec _ "bob").1, ?_, ?_⟩
  · exact ((protected_recipe_spec
      (.recipe "i1" "Cake" (some "Десерт") (some "alice") [.ingredient "Flour"]) "bob").2.2
        (by decide)).1
  · exact ((protected_recipe_spec
      (.recipe "i1" "Cake" (some "Десерт") (some "alice") [.ingredient "Flour"]) "bob").2.2
        (by decide)).2

end Lab2

namespace Lab3

/-- Claim C7: the chain `NameValidator(IngredientsValidator())`
succeeds iff the name is non-empty after stripping and the ingredient
list is non-empty; a failing link raises a `ValueError` carrying its
own reason and later links are not evaluated — when the name check
fails the result is the name-required error whatever the ingredients
are, and on `Recipe("", [], "", 0)` the result is the name-required
error. -/
theorem validate_referenceChain_eq (r : Recipe) :
    Validator.validate referenceChain r =
      if pyStrip r.name.data = [] then .error nameRequiredMsg
      else if r.ingredients = [] then .error ingredientsRequiredMsg
      else .ok () :=
  rfl

theorem validator_chain_spec (r : Recipe) :
    (Validator.validate referenceChain r = .ok () ↔
      pyStrip r.name.data ≠ [] ∧ r.ingredients ≠ []) ∧
    (pyStrip r.name.data = [] →
      Validator.validate referenceChain r = .error nameRequiredMsg) ∧
    (pyStrip r.name.data ≠ [] → r.ingredients = [] →
      Validator.validate referenceChain r = .error ingredientsRequiredMsg) ∧
    Validator.validate referenceChain ⟨r.oid, "", [], "", 0⟩ = .error nameRequiredMsg := by
  refine ⟨?_, ?_, ?_, rfl⟩
  · by_cases hn : pyStrip r.name.data = [] <;> by_cases hi : r.ingredients = [] <;>
      simp [validate_referenceChain_eq, hn, hi]
  · intro hn
    simp [validate_referenceChain_eq, hn]
  · intro hn hi
    simp [validate_referenceChain_eq, hn, hi]

/-- Claim C7 witness: the chain at `Recipe("", [], "", 0)` (name check
fails first) and at a fully valid recipe. -/
theorem validator_chain_spec_witness :
    Validator.validate referenceChain ⟨0, "", [], "", 0⟩ = .error nameRequiredMsg ∧
    Validator.validate referenceChain ⟨1, "Soup", ["Water"], "Boil", 5⟩ = .ok () := by
  constructor
  · exact (validator_chain_spec ⟨0, "", [], "", 0⟩).2.1 (by decide)
  · exact (validator_chain_spec ⟨1, "Soup", ["Water"], "Boil", 5⟩).1.mpr
      ⟨by decide, by decide⟩

/-- Claim C8: the memento round-trip law —
`r.restore_from_memento(r.create_memento())` leaves the recipe
unchanged in all four fields (and it is the same object). -/
theorem memento_roundtrip (r : Recipe) :
    r.restore_from_memento r.create_memento = r :=
  rfl

end Lab3

namespace Lab2

/-- Claim C9, counterexample: a lookup miss does *not* yield a
NullRecipe-style sentinel.  On the empty repository,
`RecipeManager.get_recipe("missing", "user1")` returns `None` — an
absent reference the caller must branch on; `lab2.py` defines no
`NullRecipe` at all. -/
theorem get_recipe_miss_counterexample :
    RecipeManager.get_recipe ⟨⟨[]⟩⟩ "missing" "user1" = none :=
  rfl

theorem lookup_eq_none_of_keys {rid : String} :
    ∀ {l : List (String × RecipeComponent)}, (∀ p ∈ l, p.1 ≠ rid) →
      List.lookup rid l = none := by
  intro l
  induction l with
  | nil => intro _; rfl
  | cons p ps ih =>
    intro h
    obtain ⟨k, v⟩ := p
    have hp : (rid == k) = false := by
      rw [beq_eq_false_iff_ne]
      exact fun e => h (k, v) (List.mem_cons_self (k, v) ps) e.symm
    simp only [List.lookup, hp]
    exact ih fun q hq => h q (List.mem_cons_of_mem (k, v) hq)

/-- Claim C9, amended: a lookup miss is treated as absence without an
exception, but it is represented by `None`, not by a sentinel: for
every `recipe_id` stored under none of the repository keys,
`RecipeManager.get_recipe(recipe_id, user)` returns `None`, and the
caller has to branch on that absent reference. -/
theorem get_recipe_miss_returns_none (repo : InMemoryRecipeRepository)
    (rid u : String) (h : ∀ p ∈ repo.recipes, p.1 ≠ rid) :
    RecipeManager.get_recipe ⟨repo⟩ rid u = none := by
  simp [RecipeManager.get_recipe, repo_get_recipe, lookup_eq_none_of_keys h]

/-- Claim C9 witness: the amended statement at a one-entry repository
and a key not stored in it. -/
theorem get_recipe_miss_returns_none_witness :
    RecipeManager.get_recipe
      ⟨⟨[("id-1", .recipe "id-1" "Cake" none none [])]⟩⟩ "id-2" "user1" = none :=
  get_recipe_miss_returns_none ⟨[("id-1", .recipe "id-1" "Cake" none none [])]⟩
    "id-2" "user1" (by decide)

end Lab2

namespace Lab3

/-- Claim C10: `RecipeManager.search_recipes` is read-only — the state
after the call has the same collection, the same active sort strategy
and the same observer list, and no observer is notified (the
notification log does not grow). -/
theorem search_recipes_read_only (m : RecipeManager) (q : String) :
    (search_recipes_run m q).2.recipes = m.recipes ∧
    (search_recipes_run m q).2.sort_strategy = m.sort_strategy ∧
    (search_recipes_run m q).2.observers = m.observers ∧
    (search_recipes_run m q).2.notifyLog = m.notifyLog :=
  ⟨rfl, rfl, rfl, rfl⟩

end Lab3
